import Mathlib

/-!
Shallow embedding of the llh::mutexed library (src/include/llh/mutexed.hpp).

Every accessor of the Mutexed wrapper is modelled by the finite sequence of
events it performs on the inner mutex and on the optional inner condition
variable, in program order, together with the outcome it propagates to the
caller.  A functor supplied by the user is modelled by the outcome it
produces: Except.ok for a normal return, Except.error for an escaping
exception; the C++ code contains no try/catch, so an accessor's outcome is
the functor's outcome while stack unwinding still runs the destructors of
the scoped guards, which is where unlock and notify events come from.

The Boolean parameter sharedCap models whether the mutex type M satisfies
the shared_lockable concept; hasCV models whether the wrapper was built with
the has_cv tag.
-/

namespace LlhMutexed

/-- Observable events on the inner mutexes and condition variables of
Mutexed wrappers.  The Nat index names the wrapper the event acts on;
single-wrapper accessors always use index 0. -/
inductive Ev where
  | lockE (i : Nat)
  | unlockE (i : Nat)
  | lockSharedE (i : Nat)
  | unlockSharedE (i : Nat)
  | notifyAllE (i : Nat)
  | invokeE

deriving instance DecidableEq for Ev

/-- Event of acquiring a possibly_shared_lock on wrapper i: std::shared_lock
(acquired with lock_shared) when M is shared_lockable, std::unique_lock
(acquired with lock) otherwise (mutexed.hpp lines 202-206). -/
def psAcquire (sharedCap : Bool) (i : Nat) : Ev :=
  if sharedCap then .lockSharedE i else .lockE i

/-- Event of releasing a possibly_shared_lock on wrapper i: unlock_shared
when M is shared_lockable, unlock otherwise. -/
def psRelease (sharedCap : Bool) (i : Nat) : Ev :=
  if sharedCap then .unlockSharedE i else .unlockE i

/-- Model of the const overload of Mutexed::with_locked (mutexed.hpp lines
266-273): construct a possibly_shared_lock on the inner mutex, invoke f on
the wrapped value, destroy the lock; the functor's outcome is propagated
unchanged on both the normal and the unwinding path. -/
def with_locked_const {E A : Type} (sharedCap : Bool) (fOut : Except E A) :
    List Ev × Except E A :=
  ([psAcquire sharedCap 0, .invokeE, psRelease sharedCap 0], fOut)

/-- Model of the non-const overload of Mutexed::with_locked (mutexed.hpp
lines 295-301): construct the notifier, then a std::lock_guard (plain lock
on the inner mutex), invoke f; at scope exit the lock_guard is destroyed
first (unlock), then the notifier, whose destructor calls notify_all exactly
when the wrapper holds a condition variable (defer_notify, lines 171-189).
Destructors run on the normal and on the unwinding path alike, and the
functor's outcome is propagated unchanged. -/
def with_locked_mut {E A : Type} (hasCV : Bool) (fOut : Except E A) :
    List Ev × Except E A :=
  (.lockE 0 :: .invokeE :: .unlockE 0 ::
    (if hasCV then [.notifyAllE 0] else []), fOut)

/-- Model of Mutexed::get_copy (mutexed.hpp lines 305-310): construct a
possibly_shared_lock, copy the wrapped value, destroy the lock. -/
def get_copy (sharedCap : Bool) : List Ev :=
  [psAcquire sharedCap 0, psRelease sharedCap 0]

/-- Model of the wait family (Mutexed::wait, wait_for, wait_until, mutexed.hpp
lines 363-392): a possibly_shared_lock is constructed, the predicate is
evaluated; for each of the k waits on the condition variable the lock is
released and, on wakeup, re-acquired before the predicate runs again; the
lock is destroyed when the call returns.  Every mutex operation goes through
the possibly_shared_lock, hence stays in the read mode. -/
def wait_events (sharedCap : Bool) (k : Nat) : List Ev :=
  [psAcquire sharedCap 0, .invokeE] ++
    (List.replicate k
      [psRelease sharedCap 0, psAcquire sharedCap 0, .invokeE]).flatten ++
    [psRelease sharedCap 0]

/-- Model of a full use of Mutexed::locked_const (mutexed.hpp lines 463-465):
the returned tuple's possibly_shared_lock is constructed on the inner mutex,
the caller's body runs with the const reference, and destroying the tuple
releases the lock; nothing else happens, in particular no notification. -/
def locked_const_scope (sharedCap : Bool) (body : List Ev) : List Ev :=
  psAcquire sharedCap 0 :: (body ++ [psRelease sharedCap 0])

/-- Model of a full use of the const overload of Mutexed::locked (mutexed.hpp
lines 441-443), whose body is a single statement returning locked_const(). -/
def locked_on_const_scope (sharedCap : Bool) (body : List Ev) : List Ev :=
  locked_const_scope sharedCap body

/-- Model of a full use of the non-const overload of Mutexed::locked
(mutexed.hpp lines 415-439): the local Lock class locks the inner mutex in
its constructor; its destructor unlocks and then, exactly when H is has_cv,
calls notify_all on the inner condition variable. -/
def locked_mut_scope (hasCV : Bool) (body : List Ev) : List Ev :=
  .lockE 0 :: (body ++ .unlockE 0 :: (if hasCV then [.notifyAllE 0] else []))

/-- Compile-time facts about one details::all_locker::lockable_proxy
instantiation: which lock functions of the inner mutex it forwards to, and
whether inner_val_ref yields a mutable reference. -/
structure ProxySpec where
  usesShared : Bool
  refMutable : Bool

deriving instance DecidableEq for ProxySpec

/-- Model of the specialization choice for lockable_proxy (mutexed.hpp lines
72-104).  A non-const handle picks the primary template: plain lock
forwarding and a mutable inner_val_ref.  A const handle picks the
partial specialization (shared forwarding, const inner_val_ref) exactly when
the wrapper's mutex_type is shared_lockable; otherwise it falls back to the
primary template instantiated at a const Mutexed, whose mutable mtx_ member
still allows plain lock forwarding while inner_val_ref is const. -/
def lockable_proxy (handleConst sharedCap : Bool) : ProxySpec :=
  if handleConst then
    if sharedCap then ⟨true, false⟩ else ⟨false, false⟩
  else ⟨false, true⟩

/-- Lock acquisition event performed through a lockable_proxy on wrapper i. -/
def proxyAcquire (p : ProxySpec) (i : Nat) : Ev :=
  if p.usesShared then .lockSharedE i else .lockE i

/-- Lock release event performed through a lockable_proxy on wrapper i. -/
def proxyRelease (p : ProxySpec) (i : Nat) : Ev :=
  if p.usesShared then .unlockSharedE i else .unlockE i

/-- How one argument reaches details::all_locker::operator(): whether the
handle is read-only (a const reference or a reference_wrapper of const),
whether its mutex type is shared_lockable, and whether the wrapper carries a
condition variable (the latter is irrelevant to the locker, which is the
point of claim C6). -/
structure MutexedArg where
  handleConst : Bool
  sharedCap : Bool
  hasCV : Bool

deriving instance DecidableEq for MutexedArg

/-- Model of details::all_locker::operator() (mutexed.hpp lines 106-121),
the functor exposed as with_all_locked: a lockable_proxy is built for each
argument, a std::scoped_lock acquires all of them, f is invoked on the
inner_val_ref of every proxy, and at scope exit (normal or unwinding) the
scoped_lock destructor releases every proxy; the functor's outcome is
propagated unchanged.  Releases happen in reverse acquisition order. -/
def all_locked_proxies (args : List MutexedArg) : List (Nat × ProxySpec) :=
  (args.map fun a => lockable_proxy a.handleConst a.sharedCap).enum

/-- Trace and outcome of one details::all_locker::operator() call, built
from the indexed lockable_proxy list of all_locked_proxies. -/
def with_all_locked {E A : Type} (args : List MutexedArg) (fOut : Except E A) :
    List Ev × Except E A :=
  (((all_locked_proxies args).map fun ip => proxyAcquire ip.2 ip.1) ++
    .invokeE ::
      ((all_locked_proxies args).reverse.map fun ip => proxyRelease ip.2 ip.1),
   fOut)

/-- Recognizer of exclusive-mode mutex events. -/
def isExclusiveOp : Ev → Bool
  | .lockE _ => true
  | .unlockE _ => true
  | _ => false

/-- Recognizer of shared-mode mutex events. -/
def isSharedOp : Ev → Bool
  | .lockSharedE _ => true
  | .unlockSharedE _ => true
  | _ => false

/-- Traces of the read accessors of one wrapper: const with_locked, get_copy,
the wait family, locked_const, and locked on a const receiver. -/
def readTraces (sharedCap : Bool) (fOut : Except Nat Nat) (k : Nat)
    (body : List Ev) : List (List Ev) :=
  [(with_locked_const sharedCap fOut).1,
   get_copy sharedCap,
   wait_events sharedCap k,
   locked_const_scope sharedCap body,
   locked_on_const_scope sharedCap body]

/-- Decides that a trace performs no exclusive-mode mutex operation. -/
def noExclusiveOps (tr : List Ev) : Bool :=
  tr.all fun e => !isExclusiveOp e

/-- Decides that a trace performs no shared-mode mutex operation. -/
def noSharedOps (tr : List Ev) : Bool :=
  tr.all fun e => !isSharedOp e

/-- Holds when the trace fires notify_all only at points where the exclusive
inner mutex of wrapper 0 has already been released: before every notify_all
event, unlock events are at least one and balance the lock events. -/
def NotifyAfterUnlock (tr : List Ev) : Prop :=
  ∀ pre suf, tr = pre ++ Ev.notifyAllE 0 :: suf →
    1 ≤ pre.count (Ev.unlockE 0) ∧
    pre.count (Ev.lockE 0) = pre.count (Ev.unlockE 0)

/-- Recognizer of condition-variable notification events. -/
def isNotify : Ev → Bool
  | .notifyAllE _ => true
  | _ => false

/-- Decides that a trace signals no condition variable at all. -/
def notifyFree (tr : List Ev) : Bool :=
  tr.all fun e => !isNotify e

/-- Decides that, over the whole trace, the lock and unlock calls on wrapper
i balance, separately for the exclusive and for the shared mode. -/
def balancedAt (i : Nat) (tr : List Ev) : Bool :=
  (tr.count (Ev.lockE i) == tr.count (Ev.unlockE i)) &&
  (tr.count (Ev.lockSharedE i) == tr.count (Ev.unlockSharedE i))

/-- Holds when every wrapper's mutex has been released as often as it was
acquired once the trace is over. -/
def Balanced (tr : List Ev) : Prop :=
  ∀ i, balancedAt i tr = true

/-- Invokability facts about a user functor F over the wrapped type T, as
tested by the invokable_with concept (mutexed.hpp lines 13-16): whether
std::invoke accepts it with T const&, with a T value, and with T&. -/
structure FunctorSig where
  invConstRef : Bool
  invValue : Bool
  invMutRef : Bool

deriving instance DecidableEq for FunctorSig

/-- The two with_locked overloads. -/
inductive Chosen where
  | readOv
  | writeOv

deriving instance DecidableEq for Chosen

/-- The requires-clause of the const with_locked overload (mutexed.hpp lines
266-269): F is invokable with T const&, or with a T value while T is copy
constructible. -/
def read_overload_viable (f : FunctorSig) (copyable : Bool) : Bool :=
  f.invConstRef || (f.invValue && copyable)

/-- The requires-clause of the non-const with_locked overload (mutexed.hpp
lines 295-296) combined with the receiver constraint: a const receiver
cannot call a non-const member function. -/
def write_overload_viable (recvMutable : Bool) (f : FunctorSig) : Bool :=
  recvMutable && f.invMutRef

/-- C++ overload resolution between the two with_locked overloads: on a
mutable receiver both can be viable and the non-const one wins because
binding the implicit object argument to Mutexed& beats binding it to
Mutexed const&; otherwise whichever is viable is taken. -/
def resolve_with_locked (recvMutable : Bool) (f : FunctorSig)
    (copyable : Bool) : Option Chosen :=
  if write_overload_viable recvMutable f then some .writeOv
  else if read_overload_viable f copyable then some .readOv
  else none

/-- Events of the construction of a Mutexed object. -/
inductive CEv where
  | beginMutexCtor
  | endMutexCtor
  | beginValueCtor
  | endValueCtor
  | destroyValue
  | destroyMutex

deriving instance DecidableEq for CEv

/-- Model of Mutexed construction (mutexed.hpp lines 208-233).  The data
members are declared mtx_ first, val_ second (lines 164-165), so in every
constructor form the members are initialized in that declaration order, and
every mem-initializer list also names mtx_ first.  mFail and tFail carry the
exception thrown by M's or T's constructor, if any; the result carries the
exception that leaves the wrapper constructor, propagated unchanged, with
the fully constructed members destroyed in reverse order during unwinding. -/
def mutexed_ctor (mFail tFail : Option Nat) : List CEv × Option Nat :=
  match mFail with
  | some em => ([.beginMutexCtor], some em)
  | none =>
    match tFail with
    | some et => ([.beginMutexCtor, .endMutexCtor, .beginValueCtor,
        .destroyMutex], some et)
    | none => ([.beginMutexCtor, .endMutexCtor, .beginValueCtor,
        .endValueCtor], none)

/-- Control point of one thread that runs iterations of the non-const
with_locked with the functor v.increment by one: idle k means k calls remain
and the thread holds nothing; acquired k means the lock_guard inside the
current call just acquired the inner mutex and k more calls follow this one;
readv k r means the functor has read the wrapped integer into the local r
and still has to write back r + 1. -/
inductive Phase where
  | idle (k : Nat)
  | acquired (k : Nat)
  | readv (k : Nat) (r : Nat)

deriving instance DecidableEq for Phase

/-- Global state of the concurrent-increment system: the wrapped integer,
the holder of the inner mutex if any, and the control point of each
thread. -/
structure Sys where
  val : Nat
  owner : Option Nat
  threads : List Phase

deriving instance DecidableEq for Sys

/-- Interleaving semantics of N threads hammering one wrapper through the
non-const with_locked.  Mutual exclusion is exactly what the inner mutex
provides: acquiring needs a free mutex, and the read and write of the
wrapped value need ownership.  The functor body is deliberately split into
a read step and a write step so that lost updates are representable and
ruled out by the lock, not by modelling the increment as atomic. -/
inductive IncStep : Sys → Sys → Prop where
  | acquire (s : Sys) (i k : Nat) :
      s.owner = none → s.threads[i]? = some (.idle (k + 1)) →
      IncStep s ⟨s.val, some i, s.threads.set i (.acquired k)⟩
  | readVal (s : Sys) (i k : Nat) :
      s.owner = some i → s.threads[i]? = some (.acquired k) →
      IncStep s ⟨s.val, s.owner, s.threads.set i (.readv k s.val)⟩
  | writeRelease (s : Sys) (i k r : Nat) :
      s.owner = some i → s.threads[i]? = some (.readv k r) →
      IncStep s ⟨r + 1, none, s.threads.set i (.idle k)⟩

/-- Reachability under the interleaving semantics. -/
def Reach : Sys → Sys → Prop :=
  Relation.ReflTransGen IncStep

/-- Initial state: value zero, mutex free, n threads each with m full
with_locked calls ahead of them. -/
def initSys (n m : Nat) : Sys :=
  ⟨0, none, List.replicate n (.idle m)⟩

/-- Number of increments a thread at this control point will still apply,
counting the one in flight. -/
def pending : Phase → Nat
  | .idle k => k
  | .acquired k => k + 1
  | .readv k _ => k + 1

/-- Total number of increments still to be applied by all threads. -/
def pendingSum (l : List Phase) : Nat :=
  (l.map pending).sum

/-- Inductive invariant of the concurrent-increment system: the value plus
the outstanding increments is constant, and a thread between its read and
its write owns the mutex and holds a register equal to the current value. -/
def SysInv (total : Nat) (s : Sys) : Prop :=
  (s.val + pendingSum s.threads = total) ∧
  ∀ i k r, s.threads[i]? = some (.readv k r) → s.owner = some i ∧ r = s.val

/-- Every event of the wait family is one of the lock acquisition, the lock
release, or a predicate evaluation. -/
lemma mem_wait_events (sharedCap : Bool) (k : Nat) :
    ∀ e ∈ wait_events sharedCap k,
      e = psAcquire sharedCap 0 ∨ e = psRelease sharedCap 0 ∨ e = Ev.invokeE := by
  intro e he
  simp only [wait_events, List.mem_append, List.mem_cons, List.mem_flatten,
    List.mem_replicate, List.not_mem_nil, or_false] at he
  aesop

/-- Claim C1: for every mutex type M, every read accessor of the wrapper
(const with_locked, get_copy, locked_const, locked on a const receiver, and
the wait family) acquires the inner mutex in shared mode
(lock_shared/unlock_shared) and never in exclusive mode when M is
shared_lockable, and acquires it in exclusive mode (lock/unlock) and never
in shared mode when M is not shared_lockable. -/
theorem c1_read_accessors_lock_mode (sharedCap : Bool) (fOut : Except Nat Nat)
    (k : Nat) (body : List Ev)
    (hb : noExclusiveOps body = true ∧ noSharedOps body = true) :
    ∀ tr ∈ readTraces sharedCap fOut k body,
      (sharedCap = true →
        noExclusiveOps tr = true ∧
        Ev.lockSharedE 0 ∈ tr ∧ Ev.unlockSharedE 0 ∈ tr) ∧
      (sharedCap = false →
        noSharedOps tr = true ∧
        Ev.lockE 0 ∈ tr ∧ Ev.unlockE 0 ∈ tr) := by
  simp only [noExclusiveOps, noSharedOps, List.all_eq_true, Bool.not_eq_true',
    Bool.not_eq_true] at hb ⊢
  intro tr htr
  simp only [readTraces, List.mem_cons, List.not_mem_nil, or_false] at htr
  constructor <;> rintro rfl <;>
    rcases htr with rfl | rfl | rfl | rfl | rfl
  · exact ⟨by intro e he; fin_cases he <;> rfl, by simp [with_locked_const, psAcquire, psRelease]⟩
  · exact ⟨by intro e he; fin_cases he <;> rfl, by simp [get_copy, psAcquire, psRelease]⟩
  · refine ⟨fun e he => ?_, ?_, ?_⟩
    · rcases mem_wait_events true k e he with rfl | rfl | rfl <;> rfl
    · exact List.mem_cons_self _ _
    · simp [wait_events, psRelease]
  · refine ⟨fun e he => ?_, ?_, ?_⟩
    · simp only [locked_const_scope, List.mem_cons, List.mem_append,
        List.not_mem_nil, or_false] at he
      rcases he with rfl | h | rfl
      · rfl
      · exact hb.1 e h
      · rfl
    · exact List.mem_cons_self _ _
    · simp [locked_const_scope, psRelease]
  · refine ⟨fun e he => ?_, ?_, ?_⟩
    · simp only [locked_on_const_scope, locked_const_scope, List.mem_cons,
        List.mem_append, List.not_mem_nil, or_false] at he
      rcases he with rfl | h | rfl
      · rfl
      · exact hb.1 e h
      · rfl
    · exact List.mem_cons_self _ _
    · simp [locked_on_const_scope, locked_const_scope, psRelease]
  · exact ⟨by intro e he; fin_cases he <;> rfl, by simp [with_locked_const, psAcquire, psRelease]⟩
  · exact ⟨by intro e he; fin_cases he <;> rfl, by simp [get_copy, psAcquire, psRelease]⟩
  · refine ⟨fun e he => ?_, ?_, ?_⟩
    · rcases mem_wait_events false k e he with rfl | rfl | rfl <;> rfl
    · exact List.mem_cons_self _ _
    · simp [wait_events, psRelease]
  · refine ⟨fun e he => ?_, ?_, ?_⟩
    · simp only [locked_const_scope, List.mem_cons, List.mem_append,
        List.not_mem_nil, or_false] at he
      rcases he with rfl | h | rfl
      · rfl
      · exact hb.2 e h
      · rfl
    · exact List.mem_cons_self _ _
    · simp [locked_const_scope, psRelease]
  · refine ⟨fun e he => ?_, ?_, ?_⟩
    · simp only [locked_on_const_scope, locked_const_scope, List.mem_cons,
        List.mem_append, List.not_mem_nil, or_false] at he
      rcases he with rfl | h | rfl
      · rfl
      · exact hb.2 e h
      · rfl
    · exact List.mem_cons_self _ _
    · simp [locked_on_const_scope, locked_const_scope, psRelease]

/-- Witness for claim C1 at a concrete instantiation: get_copy on a
shared-capable wrapper stays in shared mode. -/
theorem c1_witness :
    noExclusiveOps (get_copy true) = true ∧
    Ev.lockSharedE 0 ∈ get_copy true ∧ Ev.unlockSharedE 0 ∈ get_copy true :=
  (c1_read_accessors_lock_mode true (Except.ok 0) 1 [Ev.invokeE] (by decide)
    (get_copy true) (by simp [readTraces])).1 rfl

/-- Uniqueness of a split at an element that occurs nowhere else: when x is
in neither l₁ nor l₂, a decomposition of l₁ ++ x :: l₂ around x must be the
designated one. -/
lemma append_cons_inj {α : Type} {x : α} :
    ∀ {l₁ pre suf l₂ : List α},
      pre ++ x :: suf = l₁ ++ x :: l₂ → x ∉ l₁ → x ∉ l₂ →
      pre = l₁ ∧ suf = l₂ := by
  intro l₁
  induction l₁ with
  | nil =>
    intro pre suf l₂ h h₁ h₂
    cases pre with
    | nil => simpa using h
    | cons a pre =>
      simp only [List.cons_append, List.nil_append, List.cons.injEq] at h
      exact absurd (h.2 ▸ List.mem_append_right pre (List.mem_cons_self x suf)) h₂
  | cons b l₁ ih =>
    intro pre suf l₂ h h₁ h₂
    cases pre with
    | nil =>
      simp only [List.nil_append, List.cons_append, List.cons.injEq] at h
      obtain ⟨rfl, -⟩ := h
      exact absurd (List.mem_cons_self _ _) h₁
    | cons a pre =>
      simp only [List.cons_append, List.cons.injEq] at h
      obtain ⟨rfl, h⟩ := h
      have hres := ih h (fun hx => h₁ (List.mem_cons_of_mem _ hx)) h₂
      exact ⟨by rw [hres.1], hres.2⟩

/-- Claim C2: with waiting enabled, both write accessors (the non-const
with_locked and the guard returned by the non-const locked) call notify_all
exactly once, and the notify_all fires only after the inner mutex has been
unlocked, on every exit path, whether the user functor returned normally
(fOut ok) or threw (fOut error), and whatever the guard body did short of
touching the wrapper's own mutex or condition variable. -/
theorem c2_write_accessors_notify_once_after_unlock (fOut : Except Nat Nat)
    (body : List Ev)
    (hb : body.count (Ev.notifyAllE 0) = 0 ∧ body.count (Ev.lockE 0) = 0 ∧
      body.count (Ev.unlockE 0) = 0) :
    ((with_locked_mut true fOut).1.count (Ev.notifyAllE 0) = 1 ∧
      NotifyAfterUnlock (with_locked_mut true fOut).1) ∧
    (locked_mut_scope true body).count (Ev.notifyAllE 0) = 1 ∧
    NotifyAfterUnlock (locked_mut_scope true body) := by
  obtain ⟨hn, hl, hu⟩ := hb
  have hnotmem : Ev.notifyAllE 0 ∉ body := List.count_eq_zero.mp hn
  refine ⟨⟨rfl, ?_⟩, ?_, ?_⟩
  · intro pre suf h
    have h' : pre ++ Ev.notifyAllE 0 :: suf =
        [Ev.lockE 0, Ev.invokeE, Ev.unlockE 0] ++ Ev.notifyAllE 0 :: [] := h.symm
    obtain ⟨rfl, -⟩ := append_cons_inj h' (by decide) (by decide)
    decide
  · simp [locked_mut_scope, List.count_cons, List.count_append, hn]
  · intro pre suf h
    have hshape : locked_mut_scope true body =
        (Ev.lockE 0 :: (body ++ [Ev.unlockE 0])) ++ Ev.notifyAllE 0 :: [] := by
      simp [locked_mut_scope]
    obtain ⟨rfl, -⟩ := append_cons_inj (h.symm.trans hshape)
      (by simpa using hnotmem) (by simp)
    constructor
    · simp [List.count_cons, List.count_append, hu]
    · simp [List.count_cons, List.count_append, hl, hu]

/-- Witness for claim C2 at a concrete instantiation: a throwing functor and
an empty guard body. -/
theorem c2_witness :
    ((with_locked_mut true (Except.error 7 : Except Nat Nat)).1.count
        (Ev.notifyAllE 0) = 1 ∧
      NotifyAfterUnlock (with_locked_mut true
        (Except.error 7 : Except Nat Nat)).1) ∧
    (locked_mut_scope true []).count (Ev.notifyAllE 0) = 1 ∧
    NotifyAfterUnlock (locked_mut_scope true []) :=
  c2_write_accessors_notify_once_after_unlock (Except.error 7) [] (by decide)

/-- A trace certified notify-free contains no notify_all event. -/
lemma notifyFree_not_mem {tr : List Ev} (h : notifyFree tr = true) (i : Nat) :
    Ev.notifyAllE i ∉ tr := by
  intro hm
  have hall := List.all_eq_true.mp h _ hm
  simp [isNotify] at hall

/-- Acquiring a possibly_shared_lock is never a notification. -/
lemma isNotify_psAcquire (b : Bool) (i : Nat) :
    isNotify (psAcquire b i) = false := by
  cases b <;> rfl

/-- Releasing a possibly_shared_lock is never a notification. -/
lemma isNotify_psRelease (b : Bool) (i : Nat) :
    isNotify (psRelease b i) = false := by
  cases b <;> rfl

/-- Locking through a lockable_proxy is never a notification. -/
lemma isNotify_proxyAcquire (p : ProxySpec) (i : Nat) :
    isNotify (proxyAcquire p i) = false := by
  rcases p with ⟨u, r⟩
  cases u <;> rfl

/-- Unlocking through a lockable_proxy is never a notification. -/
lemma isNotify_proxyRelease (p : ProxySpec) (i : Nat) :
    isNotify (proxyRelease p i) = false := by
  rcases p with ⟨u, r⟩
  cases u <;> rfl

/-- Every event of a with_all_locked trace is the functor invocation or a
proxy lock or unlock. -/
lemma mem_with_all_locked {E A : Type} (args : List MutexedArg)
    (fOut : Except E A) :
    ∀ e ∈ (with_all_locked args fOut).1,
      e = Ev.invokeE ∨ ∃ p i, e = proxyAcquire p i ∨ e = proxyRelease p i := by
  intro e he
  simp only [with_all_locked, List.mem_append, List.mem_cons, List.mem_map,
    List.mem_reverse] at he
  rcases he with ⟨ip, -, rfl⟩ | rfl | ⟨ip, -, rfl⟩
  · exact Or.inr ⟨ip.2, ip.1, Or.inl rfl⟩
  · exact Or.inl rfl
  · exact Or.inr ⟨ip.2, ip.1, Or.inr rfl⟩

/-- Claim C3 counterexample: a non-const with_locked call whose functor
throws is a write-scope that does not exit normally, yet on a waiting
wrapper the trace still contains the notify_all (the defer_notify
destructor runs during unwinding), so the condition variable is not
signaled only when a write-scope exits normally. -/
theorem c3_counterexample :
    (with_locked_mut true (Except.error 5 : Except Nat Nat)).2 =
      Except.error 5 ∧
    Ev.notifyAllE 0 ∈ (with_locked_mut true
      (Except.error 5 : Except Nat Nat)).1 := by
  constructor
  · rfl
  · have h : (with_locked_mut true (Except.error 5 : Except Nat Nat)).1 =
        [Ev.lockE 0, Ev.invokeE, Ev.unlockE 0, Ev.notifyAllE 0] := rfl
    rw [h]
    decide

/-- Claim C3 as amended: the condition variable is signaled iff a
write-scope exited, normally or by exception, on a wrapper built with
waiting enabled; no read accessor and no with_all_locked call ever signals
it. -/
theorem c3_amended_notify_iff_write_scope (sharedCap hasCV : Bool)
    (fOut : Except Nat Nat) (k : Nat) (body : List Ev)
    (hb : notifyFree body = true) (args : List MutexedArg) :
    (Ev.notifyAllE 0 ∈ (with_locked_mut hasCV fOut).1 ↔ hasCV = true) ∧
    (Ev.notifyAllE 0 ∈ locked_mut_scope hasCV body ↔ hasCV = true) ∧
    (readTraces sharedCap fOut k body).all notifyFree = true ∧
    notifyFree (with_all_locked args fOut).1 = true := by
  refine ⟨?_, ?_, ?_, ?_⟩
  · cases hasCV <;> simp [with_locked_mut]
  · cases hasCV <;>
      simp [locked_mut_scope, List.mem_append, notifyFree_not_mem hb 0]
  · rw [List.all_eq_true]
    intro tr htr
    rw [notifyFree, List.all_eq_true]
    intro e he
    suffices hs : isNotify e = false by simp [hs]
    simp only [readTraces, List.mem_cons, List.not_mem_nil, or_false] at htr
    rcases htr with rfl | rfl | rfl | rfl | rfl
    · simp only [with_locked_const, List.mem_cons, List.not_mem_nil,
        or_false] at he
      rcases he with rfl | rfl | rfl
      · exact isNotify_psAcquire sharedCap 0
      · rfl
      · exact isNotify_psRelease sharedCap 0
    · simp only [get_copy, List.mem_cons, List.not_mem_nil, or_false] at he
      rcases he with rfl | rfl
      · exact isNotify_psAcquire sharedCap 0
      · exact isNotify_psRelease sharedCap 0
    · rcases mem_wait_events sharedCap k e he with rfl | rfl | rfl
      · exact isNotify_psAcquire sharedCap 0
      · exact isNotify_psRelease sharedCap 0
      · rfl
    · simp only [locked_const_scope, List.mem_cons, List.mem_append,
        List.not_mem_nil, or_false] at he
      rcases he with rfl | he | rfl
      · exact isNotify_psAcquire sharedCap 0
      · simpa using List.all_eq_true.mp hb e he
      · exact isNotify_psRelease sharedCap 0
    · simp only [locked_on_const_scope, locked_const_scope, List.mem_cons,
        List.mem_append, List.not_mem_nil, or_false] at he
      rcases he with rfl | he | rfl
      · exact isNotify_psAcquire sharedCap 0
      · simpa using List.all_eq_true.mp hb e he
      · exact isNotify_psRelease sharedCap 0
  · rw [notifyFree, List.all_eq_true]
    intro e he
    suffices hs : isNotify e = false by simp [hs]
    rcases mem_with_all_locked args fOut e he with rfl | ⟨p, i, rfl | rfl⟩
    · rfl
    · exact isNotify_proxyAcquire p i
    · exact isNotify_proxyRelease p i

/-- Witness for the amended claim C3 at a concrete instantiation. -/
theorem c3_witness :
    (Ev.notifyAllE 0 ∈ (with_locked_mut true
      (Except.ok 4 : Except Nat Nat)).1 ↔ true = true) ∧
    (Ev.notifyAllE 0 ∈ locked_mut_scope true [Ev.invokeE] ↔ true = true) ∧
    (readTraces true (Except.ok 4) 2 [Ev.invokeE]).all notifyFree = true ∧
    notifyFree (with_all_locked [⟨true, true, true⟩]
      (Except.ok 4 : Except Nat Nat)).1 = true :=
  c3_amended_notify_iff_write_scope true true (Except.ok 4) 2 [Ev.invokeE]
    (by decide) [⟨true, true, true⟩]

/-- Counting across two maps whose images hit the two targets in lockstep. -/
lemma count_map_eq_count_map {α : Type} (f g : α → Ev) (a b : Ev)
    (h : ∀ x, f x = a ↔ g x = b) (l : List α) :
    (l.map f).count a = (l.map g).count b := by
  induction l with
  | nil => rfl
  | cons x l ih =>
    simp only [List.map_cons, List.count_cons, ih]
    congr 1
    by_cases hf : f x = a
    · have hg := (h x).mp hf
      have hf' : (f x == a) = true := beq_iff_eq.mpr hf
      have hg' : (g x == b) = true := beq_iff_eq.mpr hg
      rw [hf', hg']
    · have hg : ¬g x = b := fun hg => hf ((h x).mpr hg)
      have hf' : (f x == a) = false := beq_eq_false_iff_ne.mpr hf
      have hg' : (g x == b) = false := beq_eq_false_iff_ne.mpr hg
      rw [hf', hg']

/-- A mapped list has no occurrence of an event its function never emits. -/
lemma count_map_eq_zero {α : Type} (f : α → Ev) (a : Ev)
    (h : ∀ x, f x ≠ a) (l : List α) : (l.map f).count a = 0 := by
  rw [List.count_eq_zero]
  intro hmem
  rcases List.mem_map.mp hmem with ⟨x, -, hx⟩
  exact h x hx

/-- Occurrences of a non-invoke event in a with_all_locked trace come from
the acquisition map and the release map. -/
lemma count_with_all_locked {E A : Type} (args : List MutexedArg)
    (fOut : Except E A) (x : Ev) (hx : x ≠ Ev.invokeE) :
    (with_all_locked args fOut).1.count x =
      ((all_locked_proxies args).map fun ip => proxyAcquire ip.2 ip.1).count x +
      ((all_locked_proxies args).map fun ip => proxyRelease ip.2 ip.1).count x := by
  have hinv : (Ev.invokeE == x) = false :=
    beq_eq_false_iff_ne.mpr fun hc => hx hc.symm
  have hrev : (all_locked_proxies args).reverse.map
        (fun ip => proxyRelease ip.2 ip.1) =
      ((all_locked_proxies args).map fun ip => proxyRelease ip.2 ip.1).reverse :=
    List.map_reverse _ _
  show (((all_locked_proxies args).map fun ip => proxyAcquire ip.2 ip.1) ++
      Ev.invokeE ::
        ((all_locked_proxies args).reverse.map fun ip =>
          proxyRelease ip.2 ip.1)).count x = _
  rw [List.count_append, List.count_cons, hinv, hrev, List.count_reverse]
  simp

/-- Acquisitions and releases through the proxies of a with_all_locked call
balance for every wrapper, in both lock modes. -/
lemma with_all_locked_balanced {E A : Type} (args : List MutexedArg)
    (fOut : Except E A) : Balanced (with_all_locked args fOut).1 := by
  intro i
  rw [balancedAt, Bool.and_eq_true, beq_iff_eq, beq_iff_eq]
  constructor
  · rw [count_with_all_locked args fOut _ (by simp),
      count_with_all_locked args fOut _ (by simp)]
    have h1 := count_map_eq_count_map (fun ip => proxyAcquire ip.2 ip.1)
      (fun ip => proxyRelease ip.2 ip.1) (Ev.lockE i) (Ev.unlockE i)
      (fun ip => by
        rcases ip with ⟨j, u, r⟩
        cases u <;> simp [proxyAcquire, proxyRelease])
      (all_locked_proxies args)
    have h2 := count_map_eq_zero (fun ip => proxyRelease ip.2 ip.1)
      (Ev.lockE i)
      (fun ip => by
        rcases ip with ⟨j, u, r⟩
        cases u <;> simp [proxyRelease])
      (all_locked_proxies args)
    have h3 := count_map_eq_zero (fun ip => proxyAcquire ip.2 ip.1)
      (Ev.unlockE i)
      (fun ip => by
        rcases ip with ⟨j, u, r⟩
        cases u <;> simp [proxyAcquire])
      (all_locked_proxies args)
    omega
  · rw [count_with_all_locked args fOut _ (by simp),
      count_with_all_locked args fOut _ (by simp)]
    have h1 := count_map_eq_count_map (fun ip => proxyAcquire ip.2 ip.1)
      (fun ip => proxyRelease ip.2 ip.1) (Ev.lockSharedE i) (Ev.unlockSharedE i)
      (fun ip => by
        rcases ip with ⟨j, u, r⟩
        cases u <;> simp [proxyAcquire, proxyRelease])
      (all_locked_proxies args)
    have h2 := count_map_eq_zero (fun ip => proxyRelease ip.2 ip.1)
      (Ev.lockSharedE i)
      (fun ip => by
        rcases ip with ⟨j, u, r⟩
        cases u <;> simp [proxyRelease])
      (all_locked_proxies args)
    have h3 := count_map_eq_zero (fun ip => proxyAcquire ip.2 ip.1)
      (Ev.unlockSharedE i)
      (fun ip => by
        rcases ip with ⟨j, u, r⟩
        cases u <;> simp [proxyAcquire])
      (all_locked_proxies args)
    omega

/-- Claim C4: when the user functor throws, each of the const with_locked,
the non-const with_locked (with or without waiting), and with_all_locked
propagates the exception unchanged, and every mutex acquired by the call is
released by the time the exception reaches the caller, in both lock modes
and on every wrapper. -/
theorem c4_functor_exception_releases_and_propagates (sharedCap hasCV : Bool)
    (e : Nat) (args : List MutexedArg) :
    ((with_locked_const sharedCap (Except.error e : Except Nat Nat)).2 =
        Except.error e ∧
      Balanced (with_locked_const sharedCap
        (Except.error e : Except Nat Nat)).1) ∧
    ((with_locked_mut hasCV (Except.error e : Except Nat Nat)).2 =
        Except.error e ∧
      Balanced (with_locked_mut hasCV (Except.error e : Except Nat Nat)).1) ∧
    (with_all_locked args (Except.error e : Except Nat Nat)).2 =
        Except.error e ∧
    Balanced (with_all_locked args (Except.error e : Except Nat Nat)).1 := by
  refine ⟨⟨rfl, ?_⟩, ⟨rfl, ?_⟩, rfl, with_all_locked_balanced args _⟩
  · intro i
    cases sharedCap
    · have h : (with_locked_const false (Except.error e : Except Nat Nat)).1 =
          [Ev.lockE 0, Ev.invokeE, Ev.unlockE 0] := rfl
      rw [h, balancedAt]
      rcases i with - | j <;> rfl
    · have h : (with_locked_const true (Except.error e : Except Nat Nat)).1 =
          [Ev.lockSharedE 0, Ev.invokeE, Ev.unlockSharedE 0] := rfl
      rw [h, balancedAt]
      rcases i with - | j <;> rfl
  · intro i
    cases hasCV
    · have h : (with_locked_mut false (Except.error e : Except Nat Nat)).1 =
          [Ev.lockE 0, Ev.invokeE, Ev.unlockE 0] := rfl
      rw [h, balancedAt]
      rcases i with - | j <;> rfl
    · have h : (with_locked_mut true (Except.error e : Except Nat Nat)).1 =
          [Ev.lockE 0, Ev.invokeE, Ev.unlockE 0, Ev.notifyAllE 0] := rfl
      rw [h, balancedAt]
      rcases i with - | j <;> rfl

/-- Witness for claim C4 at a concrete instantiation: one read-only
shared-capable argument and one mutable exclusive-only argument. -/
theorem c4_witness :
    ((with_locked_const true (Except.error 9 : Except Nat Nat)).2 =
        Except.error 9 ∧
      Balanced (with_locked_const true
        (Except.error 9 : Except Nat Nat)).1) ∧
    ((with_locked_mut true (Except.error 9 : Except Nat Nat)).2 =
        Except.error 9 ∧
      Balanced (with_locked_mut true (Except.error 9 : Except Nat Nat)).1) ∧
    (with_all_locked [⟨true, true, false⟩, ⟨false, false, true⟩]
        (Except.error 9 : Except Nat Nat)).2 = Except.error 9 ∧
    Balanced (with_all_locked [⟨true, true, false⟩, ⟨false, false, true⟩]
        (Except.error 9 : Except Nat Nat)).1 :=
  c4_functor_exception_releases_and_propagates true true 9
    [⟨true, true, false⟩, ⟨false, false, true⟩]

/-- Claim C5: in a with_all_locked call, a mutable Mutexed argument is
locked exclusively and f receives a mutable reference for it; a read-only
handle whose mutex is shared_lockable is locked in shared mode and f
receives a const reference; a read-only handle whose mutex is not
shared_lockable is still accepted (the proxy exists and f is still
invoked), locked exclusively, and f receives a const reference. -/
theorem c5_with_all_locked_intents (sc : Bool) (args : List MutexedArg)
    (fOut : Except Nat Nat) (i : Nat) :
    ((lockable_proxy false sc).refMutable = true ∧
      (lockable_proxy false sc).usesShared = false) ∧
    (sc = true → lockable_proxy true sc = ⟨true, false⟩) ∧
    (sc = false → lockable_proxy true sc = ⟨false, false⟩) ∧
    proxyAcquire ⟨true, false⟩ i = Ev.lockSharedE i ∧
    proxyAcquire ⟨false, false⟩ i = Ev.lockE i ∧
    proxyAcquire ⟨false, true⟩ i = Ev.lockE i ∧
    Ev.invokeE ∈ (with_all_locked args fOut).1 := by
  refine ⟨?_, ?_, ?_, rfl, rfl, rfl, ?_⟩
  · cases sc <;> exact ⟨rfl, rfl⟩
  · rintro rfl; rfl
  · rintro rfl; rfl
  · simp [with_all_locked, List.mem_append]

/-- Witness for claim C5 at a concrete instantiation. -/
theorem c5_witness :
    (((lockable_proxy false true).refMutable = true ∧
      (lockable_proxy false true).usesShared = false) ∧
    (true = true → lockable_proxy true true = ⟨true, false⟩) ∧
    (true = false → lockable_proxy true true = ⟨false, false⟩) ∧
    proxyAcquire ⟨true, false⟩ 2 = Ev.lockSharedE 2 ∧
    proxyAcquire ⟨false, false⟩ 2 = Ev.lockE 2 ∧
    proxyAcquire ⟨false, true⟩ 2 = Ev.lockE 2 ∧
    Ev.invokeE ∈ (with_all_locked [⟨true, false, false⟩]
      (Except.ok 1 : Except Nat Nat)).1) :=
  c5_with_all_locked_intents true [⟨true, false, false⟩] (Except.ok 1) 2

/-- Claim C6: with_all_locked never signals any condition variable,
whatever mix of read-only and mutable, waiting and non-waiting wrappers it
locked, and whether the functor returned normally or threw. -/
theorem c6_with_all_locked_never_notifies (args : List MutexedArg)
    (fOut : Except Nat Nat) (i : Nat) :
    notifyFree (with_all_locked args fOut).1 = true ∧
    Ev.notifyAllE i ∉ (with_all_locked args fOut).1 := by
  have hfree : notifyFree (with_all_locked args fOut).1 = true := by
    rw [notifyFree, List.all_eq_true]
    intro e he
    suffices hs : isNotify e = false by simp [hs]
    rcases mem_with_all_locked args fOut e he with rfl | ⟨p, j, rfl | rfl⟩
    · rfl
    · exact isNotify_proxyAcquire p j
    · exact isNotify_proxyRelease p j
  exact ⟨hfree, notifyFree_not_mem hfree i⟩

/-- Witness for claim C6 at a concrete instantiation: two exclusively
locked waiting wrappers and a throwing functor. -/
theorem c6_witness :
    notifyFree (with_all_locked [⟨false, false, true⟩, ⟨false, true, true⟩]
      (Except.error 3 : Except Nat Nat)).1 = true ∧
    Ev.notifyAllE 0 ∉ (with_all_locked
      [⟨false, false, true⟩, ⟨false, true, true⟩]
      (Except.error 3 : Except Nat Nat)).1 :=
  c6_with_all_locked_never_notifies
    [⟨false, false, true⟩, ⟨false, true, true⟩] (Except.error 3) 0

/-- Claim C7: on a const receiver only the read overload of with_locked is
callable, so any resolved call dispatches to the read (shared-locking,
non-notifying) overload; on a mutable receiver the write overload is
additionally callable and wins when the functor accepts a mutable
reference, while a functor invokable only with a const reference still
resolves to the read overload, whose trace notifies nobody. -/
theorem c7_overload_selection (f : FunctorSig) (c sharedCap : Bool)
    (fOut : Except Nat Nat) :
    (∀ ch, resolve_with_locked false f c = some ch → ch = .readOv) ∧
    (read_overload_viable f c = true →
      resolve_with_locked false f c = some .readOv) ∧
    (f.invMutRef = true → resolve_with_locked true f c = some .writeOv) ∧
    (f.invConstRef = true → f.invMutRef = false →
      resolve_with_locked true f c = some .readOv) ∧
    notifyFree (with_locked_const sharedCap fOut).1 = true := by
  rcases f with ⟨icr, iv, imr⟩
  refine ⟨?_, ?_, ?_, ?_, ?_⟩
  · intro ch h
    by_cases hr : read_overload_viable ⟨icr, iv, imr⟩ c = true
    · simp [resolve_with_locked, write_overload_viable, hr] at h
      exact h.symm
    · simp [resolve_with_locked, write_overload_viable, hr] at h
  · intro h
    simp [resolve_with_locked, write_overload_viable, h]
  · rintro rfl
    rfl
  · rintro rfl rfl
    rfl
  · rw [notifyFree, List.all_eq_true]
    intro e he
    suffices hs : isNotify e = false by simp [hs]
    simp only [with_locked_const, List.mem_cons, List.not_mem_nil,
      or_false] at he
    rcases he with rfl | rfl | rfl
    · exact isNotify_psAcquire sharedCap 0
    · rfl
    · exact isNotify_psRelease sharedCap 0

/-- Witness for claim C7 at a concrete instantiation: a functor invokable
only with a const reference. -/
theorem c7_witness :
    (∀ ch, resolve_with_locked false ⟨true, false, false⟩ true = some ch →
      ch = .readOv) ∧
    (read_overload_viable ⟨true, false, false⟩ true = true →
      resolve_with_locked false ⟨true, false, false⟩ true = some .readOv) ∧
    ((⟨true, false, false⟩ : FunctorSig).invMutRef = true →
      resolve_with_locked true ⟨true, false, false⟩ true = some .writeOv) ∧
    ((⟨true, false, false⟩ : FunctorSig).invConstRef = true →
      (⟨true, false, false⟩ : FunctorSig).invMutRef = false →
      resolve_with_locked true ⟨true, false, false⟩ true = some .readOv) ∧
    notifyFree (with_locked_const true (Except.ok 0 : Except Nat Nat)).1 =
      true :=
  c7_overload_selection ⟨true, false, false⟩ true true (Except.ok 0)

/-- Claim C8 counterexample: when M's constructor fails in the form that
builds both members, the T value has not been constructed at that point (the
members are initialized in declaration order, mtx_ first), so no T value is
destroyed; the claim's description of the order is false on this code. -/
theorem c8_counterexample :
    (mutexed_ctor (some 3) none).2 = some 3 ∧
    (mutexed_ctor (some 3) none).1 = [CEv.beginMutexCtor] ∧
    CEv.endValueCtor ∉ (mutexed_ctor (some 3) none).1 ∧
    CEv.destroyValue ∉ (mutexed_ctor (some 3) none).1 := by
  decide

/-- Claim C8 as amended: wrapper construction is the only failing operation
and it propagates any constructor exception unchanged; since the members
initialize in declaration order (mtx_ before val_), a failing M constructor
fires before the T value exists, so nothing is destroyed, while a failing T
constructor destroys the already-built mutex; the accessors themselves
surface only the functor's own outcome. -/
theorem c8_amended_ctor_order (em et : Nat) (sharedCap hasCV : Bool)
    (fOut : Except Nat Nat) :
    ((mutexed_ctor (some em) none).2 = some em ∧
      CEv.beginValueCtor ∉ (mutexed_ctor (some em) none).1 ∧
      CEv.destroyValue ∉ (mutexed_ctor (some em) none).1) ∧
    (mutexed_ctor (some em) (some et)).2 = some em ∧
    ((mutexed_ctor none (some et)).2 = some et ∧
      CEv.destroyMutex ∈ (mutexed_ctor none (some et)).1) ∧
    (mutexed_ctor none none).2 = none ∧
    (with_locked_const sharedCap fOut).2 = fOut ∧
    (with_locked_mut hasCV fOut).2 = fOut := by
  refine ⟨⟨rfl, ?_, ?_⟩, rfl, ⟨rfl, ?_⟩, rfl, rfl, rfl⟩
  · have h : (mutexed_ctor (some em) none).1 = [CEv.beginMutexCtor] := rfl
    rw [h]
    decide
  · have h : (mutexed_ctor (some em) none).1 = [CEv.beginMutexCtor] := rfl
    rw [h]
    decide
  · have h : (mutexed_ctor none (some et)).1 =
        [CEv.beginMutexCtor, CEv.endMutexCtor, CEv.beginValueCtor,
          CEv.destroyMutex] := rfl
    rw [h]
    decide

/-- Witness for the amended claim C8 at a concrete instantiation. -/
theorem c8_witness :
    ((mutexed_ctor (some 1) none).2 = some 1 ∧
      CEv.beginValueCtor ∉ (mutexed_ctor (some 1) none).1 ∧
      CEv.destroyValue ∉ (mutexed_ctor (some 1) none).1) ∧
    (mutexed_ctor (some 1) (some 2)).2 = some 1 ∧
    ((mutexed_ctor none (some 2)).2 = some 2 ∧
      CEv.destroyMutex ∈ (mutexed_ctor none (some 2)).1) ∧
    (mutexed_ctor none none).2 = none ∧
    (with_locked_const true (Except.ok 0 : Except Nat Nat)).2 = Except.ok 0 ∧
    (with_locked_mut false (Except.ok 0 : Except Nat Nat)).2 = Except.ok 0 :=
  c8_amended_ctor_order 1 2 true false (Except.ok 0)

/-- Claim C10: locked on a const receiver produces exactly what locked_const
produces; the scope acquires a possibly_shared_lock (shared when the mutex
is shared_lockable, exclusive otherwise), releases it last, and never
signals the condition variable. -/
theorem c10_locked_const_refinement (sharedCap : Bool) (body : List Ev)
    (hb : notifyFree body = true) :
    locked_on_const_scope sharedCap body = locked_const_scope sharedCap body ∧
    (locked_const_scope sharedCap body).head? =
      some (psAcquire sharedCap 0) ∧
    (locked_const_scope sharedCap body).getLast? =
      some (psRelease sharedCap 0) ∧
    psAcquire true 0 = Ev.lockSharedE 0 ∧
    psAcquire false 0 = Ev.lockE 0 ∧
    psRelease true 0 = Ev.unlockSharedE 0 ∧
    psRelease false 0 = Ev.unlockE 0 ∧
    notifyFree (locked_on_const_scope sharedCap body) = true := by
  refine ⟨rfl, rfl, ?_, rfl, rfl, rfl, rfl, ?_⟩
  · show (psAcquire sharedCap 0 :: (body ++ [psRelease sharedCap 0])).getLast? =
      some (psRelease sharedCap 0)
    rw [← List.cons_append, List.getLast?_concat]
  · rw [notifyFree, List.all_eq_true]
    intro e he
    suffices hs : isNotify e = false by simp [hs]
    simp only [locked_on_const_scope, locked_const_scope, List.mem_cons,
      List.mem_append, List.not_mem_nil, or_false] at he
    rcases he with rfl | he | rfl
    · exact isNotify_psAcquire sharedCap 0
    · simpa using List.all_eq_true.mp hb e he
    · exact isNotify_psRelease sharedCap 0

/-- Witness for claim C10 at a concrete instantiation. -/
theorem c10_witness :
    locked_on_const_scope true [Ev.invokeE] =
      locked_const_scope true [Ev.invokeE] ∧
    (locked_const_scope true [Ev.invokeE]).head? = some (psAcquire true 0) ∧
    (locked_const_scope true [Ev.invokeE]).getLast? =
      some (psRelease true 0) ∧
    psAcquire true 0 = Ev.lockSharedE 0 ∧
    psAcquire false 0 = Ev.lockE 0 ∧
    psRelease true 0 = Ev.unlockSharedE 0 ∧
    psRelease false 0 = Ev.unlockE 0 ∧
    notifyFree (locked_on_const_scope true [Ev.invokeE]) = true :=
  c10_locked_const_refinement true [Ev.invokeE] (by decide)

/-- Replacing one thread's phase trades its pending count for the new
phase's pending count in the total. -/
lemma pendingSum_set (l : List Phase) (i : Nat) (p q : Phase)
    (h : l[i]? = some p) :
    pendingSum (l.set i q) + pending p = pendingSum l + pending q := by
  induction l generalizing i with
  | nil => simp at h
  | cons a l ih =>
    cases i with
    | zero =>
      rw [List.getElem?_cons_zero] at h
      obtain rfl : a = p := Option.some.inj h
      simp only [List.set_cons_zero, pendingSum, List.map_cons, List.sum_cons]
      omega
    | succ j =>
      rw [List.getElem?_cons_succ] at h
      have hps := ih j h
      simp only [List.set_cons_succ, pendingSum, List.map_cons,
        List.sum_cons] at hps ⊢
      omega

/-- The invariant holds in the initial state. -/
lemma sysInv_init (n m : Nat) : SysInv (n * m) (initSys n m) := by
  constructor
  · show 0 + pendingSum (List.replicate n (Phase.idle m)) = n * m
    have hs : pendingSum (List.replicate n (Phase.idle m)) = n * m := by
      rw [pendingSum, List.map_replicate]
      exact List.sum_const_nat n m
    omega
  · intro i k r h
    have h2 : (List.replicate n (Phase.idle m))[i]? =
        some (Phase.readv k r) := h
    rw [List.getElem?_replicate] at h2
    split at h2
    · exact absurd (Option.some.inj h2) (by simp)
    · exact absurd h2 (by simp)

/-- The invariant is preserved by every step of the interleaving
semantics. -/
lemma sysInv_step {t : Nat} {s s2 : Sys} (h : SysInv t s)
    (hs : IncStep s s2) : SysInv t s2 := by
  obtain ⟨hsum, hreadv⟩ := h
  cases hs with
  | acquire i k hown hth =>
    obtain ⟨hlen, -⟩ := List.getElem?_eq_some_iff.mp hth
    constructor
    · show s.val + pendingSum (s.threads.set i (Phase.acquired k)) = t
      have hps := pendingSum_set s.threads i _ (Phase.acquired k) hth
      simp only [pending] at hps
      omega
    · intro j k2 r2 hj
      show some i = some j ∧ r2 = s.val
      by_cases hij : j = i
      · subst hij
        rw [List.getElem?_set_self hlen] at hj
        exact absurd (Option.some.inj hj) (by simp)
      · rw [List.getElem?_set_ne (fun hc => hij hc.symm)] at hj
        obtain ⟨hown2, -⟩ := hreadv j k2 r2 hj
        rw [hown] at hown2
        exact absurd hown2 (by simp)
  | readVal i k hown hth =>
    obtain ⟨hlen, -⟩ := List.getElem?_eq_some_iff.mp hth
    constructor
    · show s.val + pendingSum (s.threads.set i (Phase.readv k s.val)) = t
      have hps := pendingSum_set s.threads i _ (Phase.readv k s.val) hth
      simp only [pending] at hps
      omega
    · intro j k2 r2 hj
      show s.owner = some j ∧ r2 = s.val
      by_cases hij : j = i
      · subst hij
        rw [List.getElem?_set_self hlen] at hj
        have hinj := Option.some.inj hj
        rw [Phase.readv.injEq] at hinj
        exact ⟨hown, hinj.2.symm⟩
      · rw [List.getElem?_set_ne (fun hc => hij hc.symm)] at hj
        obtain ⟨hown2, -⟩ := hreadv j k2 r2 hj
        rw [hown] at hown2
        exact absurd (Option.some.inj hown2).symm hij
  | writeRelease i k r hown hth =>
    obtain ⟨hlen, -⟩ := List.getElem?_eq_some_iff.mp hth
    obtain ⟨-, hr⟩ := hreadv i k r hth
    constructor
    · show r + 1 + pendingSum (s.threads.set i (Phase.idle k)) = t
      have hps := pendingSum_set s.threads i _ (Phase.idle k) hth
      simp only [pending] at hps
      omega
    · intro j k2 r2 hj
      show none = some j ∧ r2 = r + 1
      by_cases hij : j = i
      · subst hij
        rw [List.getElem?_set_self hlen] at hj
        exact absurd (Option.some.inj hj) (by simp)
      · rw [List.getElem?_set_ne (fun hc => hij hc.symm)] at hj
        obtain ⟨hown2, -⟩ := hreadv j k2 r2 hj
        rw [hown] at hown2
        exact absurd (Option.some.inj hown2).symm hij

/-- The invariant holds in every reachable state. -/
lemma sysInv_reach {n m : Nat} {s : Sys} (h : Reach (initSys n m) s) :
    SysInv (n * m) s := by
  have h2 : Relation.ReflTransGen IncStep (initSys n m) s := h
  clear h
  induction h2 with
  | refl => exact sysInv_init n m
  | tail hab hbc ih => exact sysInv_step ih hbc

/-- Claim C9: when n threads each perform m iterations of the non-const
with_locked with an increment-by-one functor on one shared wrapper, under
any interleaving allowed by the inner mutex, a final state in which every
thread has finished holds exactly the value n times m: the concurrent write
accesses are equivalent to a sequential application. -/
theorem c9_concurrent_increments_serialize (n m : Nat) (s : Sys)
    (hreach : Reach (initSys n m) s)
    (hdone : ∀ p ∈ s.threads, p = Phase.idle 0) :
    s.val = n * m := by
  obtain ⟨hsum, -⟩ := sysInv_reach hreach
  have hz : pendingSum s.threads = 0 := by
    rw [pendingSum]
    apply List.sum_eq_zero
    intro x hx
    rcases List.mem_map.mp hx with ⟨p, hp, rfl⟩
    rw [hdone p hp]
    rfl
  omega

/-- Witness for claim C9: one thread performing one increment, through the
explicit three-step schedule acquire, read, write-and-release. -/
theorem c9_witness : (⟨1, none, [Phase.idle 0]⟩ : Sys).val = 1 * 1 :=
  c9_concurrent_increments_serialize 1 1 ⟨1, none, [Phase.idle 0]⟩
    (Relation.ReflTransGen.head (IncStep.acquire (initSys 1 1) 0 0 rfl rfl)
      (Relation.ReflTransGen.head (IncStep.readVal _ 0 0 rfl rfl)
        (Relation.ReflTransGen.head (IncStep.writeRelease _ 0 0 0 rfl rfl)
          Relation.ReflTransGen.refl)))
    (by decide)

end LlhMutexed
